import Mathlib

/-!
Verification development for the expense-splitting core of the batchhub
backend (routes/expenses.js together with the Expense schema).

User identities (Mongo ObjectIds) are modelled as naturals; monetary
amounts (JS numbers) are modelled as integers with exact arithmetic;
timestamps as naturals.  The JS `balances` object built by the summary
route is modelled as an insertion-ordered association list: object keys
are unique, property writes update in place, and a fresh key is appended
at the end, which is exactly JS property-ordering for string keys.
-/

namespace BatchHub

/-- Error taxonomy of the route handlers (HTTP statuses 404/403/400). -/
inductive Err where
  | NotFound
  | PermissionDenied
  | InvalidScope
  | ValidationError
deriving DecidableEq, Repr

/-- One element of `splitBetween` in the Expense schema:
`{ user, amount, isPaid }`. -/
structure Share where
  user : Nat
  amount : Int
  isPaid : Bool
deriving DecidableEq, Repr

/-- An Expense document (Expense schema): title, amount, category,
paidBy, splitBetween, community (required), optional event, createdAt. -/
structure Expense where
  id : Nat
  title : String
  amount : Int
  category : String
  paidBy : Nat
  splitBetween : List Share
  community : Nat
  event : Option Nat
  createdAt : Nat
deriving DecidableEq, Repr

/-- The slice of an Event document the expense routes touch: its id and
its `expenses` back-reference list. -/
structure EventDoc where
  id : Nat
  expenses : List Nat
deriving DecidableEq, Repr

/-- The persistent state the expense routes read and write. -/
structure Store where
  expenses : List Expense
  events : List EventDoc
deriving DecidableEq, Repr

/-! ## The balances object of GET /summary -/

/-- The JS `balances` object: insertion-ordered key/value pairs. -/
abbrev Balances := List (Nat × Int)

/-- Read the object property at key `u`, when present. -/
def lookupBal : Balances → Nat → Option Int
  | [], _ => none
  | p :: rest, u => if p.1 == u then some p.2 else lookupBal rest u

/-- Whether the object has key `u` (the truthiness test `!balances[u]`
also fires on a stored `0`, but resetting `0` to `0` before adding is a
no-op, so key presence is the semantically relevant test). -/
def hasKey (bal : Balances) (u : Nat) : Bool :=
  (lookupBal bal u).isSome

/-- `if (!balances[u]) balances[u] = 0; balances[u] += x`: add `x` to the
property at key `u`, creating the key at the end when absent. -/
def addBalance : Balances → Nat → Int → Balances
  | [], u, x => [(u, x)]
  | p :: rest, u, x =>
    if p.1 == u then (p.1, p.2 + x) :: rest else p :: addBalance rest u x

/-- Property value at key `u`, defaulting to `0` when the key is absent. -/
def balD (bal : Balances) (u : Nat) : Int :=
  (lookupBal bal u).getD 0

/-! ## GET /summary : the balance aggregator (routes/expenses.js 86–141) -/

/-- Body of the first `splitBetween.forEach` (the "user paid" branch):
`if (!split.user.equals(userId) && !split.isPaid) balances[split.user] += split.amount`. -/
def paidStep (userId : Nat) (bal : Balances) (s : Share) : Balances :=
  if s.user ≠ userId ∧ s.isPaid = false then addBalance bal s.user s.amount else bal

/-- Body of the second `splitBetween.forEach` (the "user owes" branch):
on `split.user == userId && paidBy != userId && !split.isPaid`, add the
share to `totalOwed` and subtract it from `balances[paidBy]`. -/
def owedStep (userId payer : Nat) (acc : Int × Balances) (s : Share) : Int × Balances :=
  if s.user = userId ∧ payer ≠ userId ∧ s.isPaid = false then
    (acc.1 + s.amount, addBalance acc.2 payer (-s.amount))
  else acc

/-- Processing of one expense inside `expenses.forEach`: the accumulator is
`(totalPaid, (totalOwed, balances))`.  When the user paid, `totalPaid`
grows by `amount` and the first `forEach` updates `balances`; the second
`forEach` (the "user owes" loop) then runs in both cases. -/
def summaryStep (userId : Nat) (acc : Int × Int × Balances) (e : Expense) :
    Int × Int × Balances :=
  if e.paidBy = userId then
    (acc.1 + e.amount,
     e.splitBetween.foldl (owedStep userId e.paidBy)
       (acc.2.1, e.splitBetween.foldl (paidStep userId) acc.2.2))
  else
    (acc.1, e.splitBetween.foldl (owedStep userId e.paidBy) (acc.2.1, acc.2.2))

/-- The response body of GET /summary. -/
structure Summary where
  totalPaid : Int
  totalOwed : Int
  netBalance : Int
  balances : Balances
deriving DecidableEq, Repr

/-- The summary computation of GET /summary over a list of expenses:
start from `totalPaid = 0`, `totalOwed = 0`, `balances = {}` and fold
over the expenses, then report `netBalance = totalPaid - totalOwed`. -/
def computeSummary (userId : Nat) (expenses : List Expense) : Summary :=
  let r := expenses.foldl (summaryStep userId) (0, 0, [])
  { totalPaid := r.1, totalOwed := r.2.1, netBalance := r.1 - r.2.1, balances := r.2.2 }

/-! ## Reference definitions, transcribed from the spec's §4.2 wording -/

/-- Sum of the unsettled share amounts owed by `debtor` in a share list. -/
def shareSumU (shares : List Share) (debtor : Nat) : Int :=
  ((shares.filter (fun s => s.user == debtor && !s.isPaid)).map (fun s => s.amount)).sum

/-- Sum of the unsettled share amounts owed by `debtor` in entry `e`. -/
def unsettledShareSum (e : Expense) (debtor : Nat) : Int :=
  shareSumU e.splitBetween debtor

/-- Spec: `totalPaid` is the sum of `amount` over entries whose payer is
the viewer. -/
def specTotalPaid (viewer : Nat) (entries : List Expense) : Int :=
  ((entries.filter (fun e => e.paidBy == viewer)).map (fun e => e.amount)).sum

/-- Spec: `totalOwed` is the sum of the viewer's unsettled share amounts
over entries paid by someone else. -/
def specTotalOwed (viewer : Nat) (entries : List Expense) : Int :=
  ((entries.filter (fun e => !(e.paidBy == viewer))).map
    (fun e => unsettledShareSum e viewer)).sum

/-- Spec: `balances[u]` accumulates `+share.amount` for every unsettled
share of debtor `u ≠ viewer` in entries the viewer paid, and
`-share.amount` for every unsettled share of the viewer in entries paid
by `u`. -/
def specBalance (viewer : Nat) (entries : List Expense) (u : Nat) : Int :=
  if u = viewer then 0
  else
    ((entries.filter (fun e => e.paidBy == viewer)).map
      (fun e => unsettledShareSum e u)).sum
    - ((entries.filter (fun e => e.paidBy == u)).map
      (fun e => unsettledShareSum e viewer)).sum

/-- Spec: key `u` is present in the balances map exactly when some entry
contributed to it (even if contributions cancel to `0`). -/
def specHasKey (viewer : Nat) (entries : List Expense) (u : Nat) : Prop :=
  u ≠ viewer ∧
    ((∃ e ∈ entries, e.paidBy = viewer ∧
        ∃ s ∈ e.splitBetween, s.user = u ∧ s.isPaid = false) ∨
     (∃ e ∈ entries, e.paidBy = u ∧
        ∃ s ∈ e.splitBetween, s.user = viewer ∧ s.isPaid = false))

/-- Contribution of one entry to the viewer's `totalPaid`. -/
def entryPaidAmt (viewer : Nat) (e : Expense) : Int :=
  if e.paidBy = viewer then e.amount else 0

/-- Contribution of one entry to the viewer's `totalOwed`. -/
def entryOwedAmt (viewer : Nat) (e : Expense) : Int :=
  if e.paidBy = viewer then 0 else unsettledShareSum e viewer

/-- Contribution of one entry to the viewer's `balances[u]`. -/
def entryBalContrib (viewer : Nat) (e : Expense) (u : Nat) : Int :=
  (if e.paidBy = viewer ∧ u ≠ viewer then unsettledShareSum e u else 0)
  - (if e.paidBy = u ∧ u ≠ viewer then unsettledShareSum e viewer else 0)

/-- Whether one entry creates key `u` in the viewer's balances map. -/
def entryAddsKey (viewer : Nat) (e : Expense) (u : Nat) : Prop :=
  u ≠ viewer ∧
    ((e.paidBy = viewer ∧ ∃ s ∈ e.splitBetween, s.user = u ∧ s.isPaid = false) ∨
     (e.paidBy = u ∧ ∃ s ∈ e.splitBetween, s.user = viewer ∧ s.isPaid = false))

/-! ## Store operations: the other expense routes -/

/-- `Expense.findById`: the stored expense with the given id (the first,
if ids were ever duplicated). -/
def findExpense (st : Store) (i : Nat) : Option Expense :=
  st.expenses.find? (fun e => e.id == i)

/-- The mutation `split.isPaid = true` on the share object returned by
`splitBetween.find(s => s.user.toString() === userId)`: set the flag on
the first share of the given debtor. -/
def setFirstPaid : List Share → Nat → List Share
  | [], _ => []
  | s :: rest, u =>
    if s.user = u then { s with isPaid := true } :: rest
    else s :: setFirstPaid rest u

/-- Persist an updated expense document (`expense.save()`): replace the
stored document(s) carrying this id. -/
def saveExpense (st : Store) (ex : Expense) : Store :=
  { st with expenses := st.expenses.map (fun x => if x.id = ex.id then ex else x) }

/-- PUT /:expenseId/pay/:userId (routes/expenses.js 144–173): 404 when
the expense or the debtor's split is missing; 403 unless the requester is
the payer or that split's debtor; otherwise mark the split paid. -/
def markSettled (expenseId debtorId requester : Nat) (st : Store) : Except Err Store :=
  match findExpense st expenseId with
  | none => .error .NotFound
  | some ex =>
    match ex.splitBetween.find? (fun s => s.user == debtorId) with
    | none => .error .NotFound
    | some split =>
      if ¬ ex.paidBy = requester ∧ ¬ split.user = requester then
        .error .PermissionDenied
      else
        .ok (saveExpense st { ex with splitBetween := setFirstPaid ex.splitBetween debtorId })

/-- DELETE /:expenseId (routes/expenses.js 176–200): 404 when unknown;
403 unless the requester is the payer; otherwise `$pull` the id from the
associated event's `expenses` list (if any) and delete the document. -/
def deleteExpense (expenseId requester : Nat) (st : Store) : Except Err Store :=
  match findExpense st expenseId with
  | none => .error .NotFound
  | some ex =>
    if ¬ ex.paidBy = requester then .error .PermissionDenied
    else
      .ok { expenses := st.expenses.filter (fun x => ! (x.id == ex.id)),
            events :=
              match ex.event with
              | some evId =>
                st.events.map (fun ev =>
                  if ev.id = evId then
                    { ev with expenses := ev.expenses.filter (fun x => ! (x == ex.id)) }
                  else ev)
              | none => st.events }

/-- The allowed `category` values of the `isIn` validator. -/
def allowedCategories : List String :=
  ["food", "transport", "accommodation", "entertainment", "other"]

/-- A POST /create request after authentication: `requester` is
`req.user._id`, and `communityId` is present exactly when the request
carried a well-formed community id. -/
structure CreateRequest where
  title : String
  amount : Int
  category : String
  communityId : Option Nat
  splitBetween : List Share
  eventId : Option Nat
  requester : Nat
deriving Repr

/-- Drop leading and trailing whitespace from a character list: an
executable model of `trim`. -/
def trimChars (l : List Char) : List Char :=
  ((l.dropWhile Char.isWhitespace).reverse.dropWhile Char.isWhitespace).reverse

/-- The `body('title').trim().notEmpty()` validator. -/
def titleNonempty (t : String) : Bool :=
  ! (trimChars t.data).isEmpty

/-- The express-validator chain of POST /create: `title` nonempty after
trimming, `amount` a number accepted by `isFloat({ min: 0 })` (that is,
`amount >= 0`), `category` in the allowed set, and a valid `communityId`. -/
def validCreate (r : CreateRequest) : Bool :=
  titleNonempty r.title && decide (0 ≤ r.amount) &&
    allowedCategories.contains r.category && r.communityId.isSome

/-- POST /create (routes/expenses.js 34–83): on validation failure the
middleware answers 400; otherwise the expense document is saved and, when
an event id is supplied, its id is pushed onto that event's list. -/
def createExpense (r : CreateRequest) (newId now : Nat) (st : Store) : Except Err Store :=
  if validCreate r then
    match r.communityId with
    | none => .error .ValidationError
    | some c =>
      .ok { expenses := st.expenses ++
              [{ id := newId, title := r.title, amount := r.amount,
                 category := r.category, paidBy := r.requester,
                 splitBetween := r.splitBetween, community := c,
                 event := r.eventId, createdAt := now }],
            events :=
              match r.eventId with
              | some evId =>
                st.events.map (fun ev =>
                  if ev.id = evId then { ev with expenses := ev.expenses ++ [newId] }
                  else ev)
              | none => st.events }
  else .error .ValidationError

/-- Newest-first order on expenses (`sort('-createdAt')`). -/
def newerFirst (a b : Expense) : Prop :=
  b.createdAt ≤ a.createdAt

instance : DecidableRel newerFirst := fun a b =>
  inferInstanceAs (Decidable (b.createdAt ≤ a.createdAt))

instance : IsTotal Expense newerFirst :=
  ⟨fun a b => Nat.le_total b.createdAt a.createdAt⟩

instance : IsTrans Expense newerFirst :=
  ⟨fun _ _ _ hab hbc => le_trans hbc hab⟩

/-- GET / (routes/expenses.js 9–31): filter by event when an event id is
given, else by community, else answer 400; return the matches ordered
newest-first. -/
def listByScope (communityId eventId : Option Nat) (st : Store) :
    Except Err (List Expense) :=
  match eventId with
  | some ev =>
    .ok (List.insertionSort newerFirst (st.expenses.filter (fun x => x.event == some ev)))
  | none =>
    match communityId with
    | some c =>
      .ok (List.insertionSort newerFirst (st.expenses.filter (fun x => x.community == c)))
    | none => .error .InvalidScope

/-- GET /summary (routes/expenses.js 86–98): the same scope filter, but
with no scope given the Mongo query stays `{}` and every stored expense
is read; there is no error path for a missing scope. -/
def summaryRoute (communityId eventId : Option Nat) (viewer : Nat) (st : Store) :
    Except Err Summary :=
  let q : List Expense :=
    match eventId with
    | some ev => st.expenses.filter (fun x => x.event == some ev)
    | none =>
      match communityId with
      | some c => st.expenses.filter (fun x => x.community == c)
      | none => st.expenses
  .ok (computeSummary viewer q)

/-! ## Concrete sample data, used to instantiate the theorems -/

/-- A fully settled entry paid by user 1. -/
def settledEntry : Expense :=
  { id := 1, title := "trip", amount := 100, category := "food", paidBy := 1,
    splitBetween := [{ user := 2, amount := 100, isPaid := true }],
    community := 1, event := none, createdAt := 0 }

/-- An entry paid by user 1 with a single unsettled share of 50 for user 2. -/
def splitEntry : Expense :=
  { id := 2, title := "dinner", amount := 50, category := "food", paidBy := 1,
    splitBetween := [{ user := 2, amount := 50, isPaid := false }],
    community := 1, event := none, createdAt := 0 }

/-- A cab fare paid by user 1, split between users 2 and 3, attached to
event 5 in community 1. -/
def cabExpense : Expense :=
  { id := 1, title := "cab", amount := 60, category := "transport", paidBy := 1,
    splitBetween := [{ user := 2, amount := 30, isPaid := false },
                     { user := 3, amount := 30, isPaid := false }],
    community := 1, event := some 5, createdAt := 10 }

/-- A hall rental paid by user 4 in community 2, owed by user 1. -/
def hallExpense : Expense :=
  { id := 2, title := "hall", amount := 40, category := "other", paidBy := 4,
    splitBetween := [{ user := 1, amount := 40, isPaid := false }],
    community := 2, event := none, createdAt := 20 }

/-- A sample store holding both expenses and the back-reference of event 5. -/
def demoStore : Store :=
  { expenses := [cabExpense, hallExpense],
    events := [{ id := 5, expenses := [1] }] }

/-- `cabExpense` with user 2's share marked settled. -/
def cabSettled : Expense :=
  { id := 1, title := "cab", amount := 60, category := "transport", paidBy := 1,
    splitBetween := [{ user := 2, amount := 30, isPaid := true },
                     { user := 3, amount := 30, isPaid := false }],
    community := 1, event := some 5, createdAt := 10 }

/-- `demoStore` after user 2's cab share has been marked settled. -/
def demoStoreSettled : Store :=
  { expenses := [cabSettled, hallExpense],
    events := [{ id := 5, expenses := [1] }] }

/-- A creation request with amount zero (otherwise valid). -/
def zeroReq : CreateRequest :=
  { title := "zero", amount := 0, category := "other", communityId := some 1,
    splitBetween := [{ user := 2, amount := 0, isPaid := false }],
    eventId := none, requester := 1 }

/-- The expense document persisted for `zeroReq` under id 3 at time 0. -/
def zeroExpense : Expense :=
  { id := 3, title := "zero", amount := 0, category := "other", paidBy := 1,
    splitBetween := [{ user := 2, amount := 0, isPaid := false }],
    community := 1, event := none, createdAt := 0 }

/-- A creation request with a negative amount. -/
def negReq : CreateRequest :=
  { title := "neg", amount := -5, category := "food", communityId := some 1,
    splitBetween := [], eventId := none, requester := 1 }

/-- A creation request whose split names debtor 2 twice. -/
def dupReq : CreateRequest :=
  { title := "dup", amount := 10, category := "food", communityId := some 1,
    splitBetween := [{ user := 2, amount := 5, isPaid := false },
                     { user := 2, amount := 5, isPaid := false }],
    eventId := none, requester := 1 }

/-- The expense document persisted for `dupReq` under id 4 at time 0. -/
def dupExpense : Expense :=
  { id := 4, title := "dup", amount := 10, category := "food", paidBy := 1,
    splitBetween := [{ user := 2, amount := 5, isPaid := false },
                     { user := 2, amount := 5, isPaid := false }],
    community := 1, event := none, createdAt := 0 }

/-! ## Proofs -/

theorem lookupBal_addBalance (bal : Balances) (u : Nat) (x : Int) (v : Nat) :
    lookupBal (addBalance bal u x) v =
      if v = u then some (balD bal u + x) else lookupBal bal v := by
  induction bal with
  | nil =>
    by_cases hvu : v = u
    · simp [addBalance, lookupBal, balD, hvu]
    · have huv : ¬ u = v := fun h => hvu h.symm
      simp [addBalance, lookupBal, balD, hvu, huv]
  | cons p rest ih =>
    by_cases hpu : p.1 = u
    · by_cases hvu : v = u
      · subst hvu
        simp [addBalance, lookupBal, balD, hpu]
      · have hpv : ¬ p.1 = v := fun h => hvu (by rw [← h, hpu])
        have huv : ¬ u = v := fun h => hvu h.symm
        simp [addBalance, lookupBal, balD, hpu, hpv, hvu, huv]
    · by_cases hvu : v = u
      · subst hvu
        have hpv : ¬ p.1 = v := hpu
        simp [addBalance, lookupBal, balD, hpu, hpv, ih]
      · by_cases hpv : p.1 = v
        · simp [addBalance, lookupBal, balD, hpu, hpv, hvu]
        · simp [addBalance, lookupBal, balD, hpu, hpv, hvu, ih]

theorem balD_addBalance (bal : Balances) (u : Nat) (x : Int) (v : Nat) :
    balD (addBalance bal u x) v = if v = u then balD bal u + x else balD bal v := by
  by_cases hvu : v = u
  · simp [balD, lookupBal_addBalance, hvu]
  · simp [balD, lookupBal_addBalance, hvu]

theorem hasKey_addBalance (bal : Balances) (u : Nat) (x : Int) (v : Nat) :
    hasKey (addBalance bal u x) v = true ↔ v = u ∨ hasKey bal v = true := by
  by_cases hvu : v = u
  · simp [hasKey, lookupBal_addBalance, hvu]
  · simp [hasKey, lookupBal_addBalance, hvu]

theorem lookupBal_eq_some_balD (bal : Balances) (v : Nat)
    (h : hasKey bal v = true) : lookupBal bal v = some (balD bal v) := by
  unfold hasKey at h
  obtain ⟨w, hw⟩ := Option.isSome_iff_exists.mp h
  simp [balD, hw]

theorem shareSumU_nil (v : Nat) : shareSumU [] v = 0 := rfl

theorem shareSumU_cons (s : Share) (rest : List Share) (v : Nat) :
    shareSumU (s :: rest) v =
      (if s.user = v ∧ s.isPaid = false then s.amount else 0) + shareSumU rest v := by
  by_cases h1 : s.user = v
  · by_cases h2 : s.isPaid = false
    · simp [shareSumU, List.filter_cons, h1, h2]
    · simp [shareSumU, List.filter_cons, h1, h2]
  · simp [shareSumU, List.filter_cons, h1]

theorem owedStep_eq (userId payer : Nat) (t : Int) (bal : Balances) (s : Share) :
    owedStep userId payer (t, bal) s =
      if s.user = userId ∧ payer ≠ userId ∧ s.isPaid = false then
        (t + s.amount, addBalance bal payer (-s.amount))
      else (t, bal) := rfl

theorem paidFold_balD (userId : Nat) (shares : List Share) (bal : Balances) (v : Nat) :
    balD (shares.foldl (paidStep userId) bal) v =
      balD bal v + (if v = userId then 0 else shareSumU shares v) := by
  induction shares generalizing bal with
  | nil => simp [shareSumU]
  | cons s rest ih =>
    rw [List.foldl_cons, ih, shareSumU_cons]
    by_cases hc : s.user ≠ userId ∧ s.isPaid = false
    · rw [paidStep, if_pos hc, balD_addBalance]
      by_cases hvu : v = userId
      · have hv : ¬ v = s.user := fun h => hc.1 (by rw [← h, hvu])
        rw [if_neg hv]
        simp [hvu]
      · by_cases hv : v = s.user
        · rw [if_pos hv, if_neg hvu, if_neg hvu, if_pos ⟨hv.symm, hc.2⟩, hv]
          ring
        · rw [if_neg hv, if_neg hvu, if_neg hvu, if_neg (fun h => hv h.1.symm)]
          ring
    · rw [paidStep, if_neg hc]
      by_cases hvu : v = userId
      · simp [hvu]
      · rw [if_neg hvu, if_neg hvu]
        have hhead : ¬ (s.user = v ∧ s.isPaid = false) := by
          rintro ⟨h1, h2⟩
          exact hc ⟨by rw [h1]; exact hvu, h2⟩
        rw [if_neg hhead]
        ring

theorem paidFold_hasKey (userId : Nat) (shares : List Share) (bal : Balances) (v : Nat) :
    hasKey (shares.foldl (paidStep userId) bal) v = true ↔
      hasKey bal v = true ∨
        (v ≠ userId ∧ ∃ s ∈ shares, s.user = v ∧ s.isPaid = false) := by
  induction shares generalizing bal with
  | nil => simp
  | cons s rest ih =>
    rw [List.foldl_cons, ih]
    by_cases hc : s.user ≠ userId ∧ s.isPaid = false
    · rw [paidStep, if_pos hc, hasKey_addBalance]
      constructor
      · rintro ((rfl | hb) | ⟨hvu, w, hw, hw1, hw2⟩)
        · exact Or.inr ⟨hc.1, s, List.mem_cons_self s rest, rfl, hc.2⟩
        · exact Or.inl hb
        · exact Or.inr ⟨hvu, w, List.mem_cons_of_mem s hw, hw1, hw2⟩
      · rintro (hb | ⟨hvu, w, hw, hw1, hw2⟩)
        · exact Or.inl (Or.inr hb)
        · rcases List.mem_cons.mp hw with rfl | hmem
          · exact Or.inl (Or.inl hw1.symm)
          · exact Or.inr ⟨hvu, w, hmem, hw1, hw2⟩
    · rw [paidStep, if_neg hc]
      constructor
      · rintro (hb | ⟨hvu, w, hw, hw1, hw2⟩)
        · exact Or.inl hb
        · exact Or.inr ⟨hvu, w, List.mem_cons_of_mem s hw, hw1, hw2⟩
      · rintro (hb | ⟨hvu, w, hw, hw1, hw2⟩)
        · exact Or.inl hb
        · rcases List.mem_cons.mp hw with rfl | hmem
          · have hne : w.user ≠ userId := by rw [hw1]; exact hvu
            exact absurd ⟨hne, hw2⟩ hc
          · exact Or.inr ⟨hvu, w, hmem, hw1, hw2⟩

theorem owedFold_fst (userId payer : Nat) (shares : List Share) (t : Int) (bal : Balances) :
    (shares.foldl (owedStep userId payer) (t, bal)).1 =
      t + (if payer = userId then 0 else shareSumU shares userId) := by
  induction shares generalizing t bal with
  | nil => simp [shareSumU]
  | cons s rest ih =>
    rw [List.foldl_cons, owedStep_eq]
    by_cases hc : s.user = userId ∧ payer ≠ userId ∧ s.isPaid = false
    · rw [if_pos hc, ih, shareSumU_cons, if_neg hc.2.1, if_neg hc.2.1,
        if_pos ⟨hc.1, hc.2.2⟩]
      ring
    · rw [if_neg hc, ih, shareSumU_cons]
      by_cases hp : payer = userId
      · rw [if_pos hp, if_pos hp]
      · have hhead : ¬ (s.user = userId ∧ s.isPaid = false) := fun h => hc ⟨h.1, hp, h.2⟩
        rw [if_neg hp, if_neg hp, if_neg hhead]
        ring

theorem owedFold_balD (userId payer : Nat) (shares : List Share) (t : Int) (bal : Balances)
    (v : Nat) :
    balD (shares.foldl (owedStep userId payer) (t, bal)).2 v =
      balD bal v +
        (if v = payer ∧ payer ≠ userId then -(shareSumU shares userId) else 0) := by
  induction shares generalizing t bal with
  | nil => simp [shareSumU]
  | cons s rest ih =>
    rw [List.foldl_cons, owedStep_eq]
    by_cases hc : s.user = userId ∧ payer ≠ userId ∧ s.isPaid = false
    · rw [if_pos hc, ih, balD_addBalance, shareSumU_cons]
      have h1 : (if s.user = userId ∧ s.isPaid = false then s.amount else 0) = s.amount :=
        if_pos ⟨hc.1, hc.2.2⟩
      rw [h1]
      by_cases hv : v = payer
      · have hvp : v = payer ∧ payer ≠ userId := ⟨hv, hc.2.1⟩
        rw [if_pos hv, if_pos hvp, if_pos hvp, hv]
        ring
      · have hvp : ¬ (v = payer ∧ payer ≠ userId) := fun h => hv h.1
        rw [if_neg hv, if_neg hvp, if_neg hvp]
    · rw [if_neg hc, ih, shareSumU_cons]
      by_cases hvp : v = payer ∧ payer ≠ userId
      · have hhead : ¬ (s.user = userId ∧ s.isPaid = false) := fun h => hc ⟨h.1, hvp.2, h.2⟩
        rw [if_pos hvp, if_pos hvp, if_neg hhead]
        ring
      · rw [if_neg hvp, if_neg hvp]

theorem owedFold_hasKey (userId payer : Nat) (shares : List Share) (t : Int) (bal : Balances)
    (v : Nat) :
    hasKey (shares.foldl (owedStep userId payer) (t, bal)).2 v = true ↔
      hasKey bal v = true ∨
        (v = payer ∧ payer ≠ userId ∧ ∃ s ∈ shares, s.user = userId ∧ s.isPaid = false) := by
  induction shares generalizing t bal with
  | nil => simp
  | cons s rest ih =>
    rw [List.foldl_cons, owedStep_eq]
    by_cases hc : s.user = userId ∧ payer ≠ userId ∧ s.isPaid = false
    · rw [if_pos hc, ih, hasKey_addBalance]
      constructor
      · rintro ((rfl | hb) | ⟨hvp, hpu, w, hw, hw1, hw2⟩)
        · exact Or.inr ⟨rfl, hc.2.1, s, List.mem_cons_self s rest, hc.1, hc.2.2⟩
        · exact Or.inl hb
        · exact Or.inr ⟨hvp, hpu, w, List.mem_cons_of_mem s hw, hw1, hw2⟩
      · rintro (hb | ⟨hvp, hpu, w, hw, hw1, hw2⟩)
        · exact Or.inl (Or.inr hb)
        · exact Or.inl (Or.inl hvp)
    · rw [if_neg hc, ih]
      constructor
      · rintro (hb | ⟨hvp, hpu, w, hw, hw1, hw2⟩)
        · exact Or.inl hb
        · exact Or.inr ⟨hvp, hpu, w, List.mem_cons_of_mem s hw, hw1, hw2⟩
      · rintro (hb | ⟨hvp, hpu, w, hw, hw1, hw2⟩)
        · exact Or.inl hb
        · rcases List.mem_cons.mp hw with rfl | hmem
          · exact absurd ⟨hw1, hpu, hw2⟩ hc
          · exact Or.inr ⟨hvp, hpu, w, hmem, hw1, hw2⟩

theorem summaryStep_fst (viewer : Nat) (acc : Int × Int × Balances) (e : Expense) :
    (summaryStep viewer acc e).1 = acc.1 + entryPaidAmt viewer e := by
  by_cases hp : e.paidBy = viewer
  · simp [summaryStep, entryPaidAmt, hp]
  · simp [summaryStep, entryPaidAmt, hp]

theorem summaryStep_snd (viewer : Nat) (acc : Int × Int × Balances) (e : Expense) :
    (summaryStep viewer acc e).2.1 = acc.2.1 + entryOwedAmt viewer e := by
  by_cases hp : e.paidBy = viewer
  · simp only [summaryStep, hp, if_pos]
    rw [owedFold_fst]
    simp [entryOwedAmt, hp]
  · simp only [summaryStep, hp, if_neg, ite_false]
    rw [owedFold_fst]
    simp [entryOwedAmt, unsettledShareSum, hp]

theorem summaryStep_balD (viewer : Nat) (acc : Int × Int × Balances) (e : Expense) (v : Nat) :
    balD (summaryStep viewer acc e).2.2 v = balD acc.2.2 v + entryBalContrib viewer e v := by
  by_cases hp : e.paidBy = viewer
  · simp only [summaryStep, hp, if_pos]
    rw [owedFold_balD, paidFold_balD]
    have h2 : ¬ (v = viewer ∧ viewer ≠ viewer) := fun h => h.2 rfl
    rw [if_neg h2]
    by_cases hv : v = viewer
    · have hc1 : ¬ (e.paidBy = viewer ∧ v ≠ viewer) := fun h => h.2 hv
      have hc2 : ¬ (e.paidBy = v ∧ v ≠ viewer) := fun h => h.2 hv
      simp [entryBalContrib, hv, hc1, hc2]
    · have hc1 : e.paidBy = viewer ∧ v ≠ viewer := ⟨hp, hv⟩
      have hc2 : ¬ (e.paidBy = v ∧ v ≠ viewer) := fun h => hv (by rw [← h.1, hp])
      simp only [entryBalContrib, if_pos hc1, if_neg hc2, if_neg hv]
      unfold unsettledShareSum
      ring
  · simp only [summaryStep, hp, if_neg, ite_false]
    rw [owedFold_balD]
    have hc1 : ¬ (e.paidBy = viewer ∧ v ≠ viewer) := fun h => hp h.1
    by_cases hv : v = e.paidBy
    · by_cases hvv : v = viewer
      · have : e.paidBy = viewer := by rw [← hv, hvv]
        exact absurd this hp
      · have ha : v = e.paidBy ∧ e.paidBy ≠ viewer := ⟨hv, hp⟩
        have hc2 : e.paidBy = v ∧ v ≠ viewer := ⟨hv.symm, hvv⟩
        simp only [entryBalContrib, if_pos ha, if_neg hc1, if_pos hc2]
        unfold unsettledShareSum
        ring
    · have ha : ¬ (v = e.paidBy ∧ e.paidBy ≠ viewer) := fun h => hv h.1
      have hc2 : ¬ (e.paidBy = v ∧ v ≠ viewer) := fun h => hv h.1.symm
      simp [entryBalContrib, if_neg ha, if_neg hc1, if_neg hc2]

theorem summaryStep_hasKey (viewer : Nat) (acc : Int × Int × Balances) (e : Expense)
    (v : Nat) :
    hasKey (summaryStep viewer acc e).2.2 v = true ↔
      hasKey acc.2.2 v = true ∨ entryAddsKey viewer e v := by
  by_cases hp : e.paidBy = viewer
  · simp only [summaryStep, hp, if_pos]
    rw [owedFold_hasKey]
    constructor
    · rintro (hk | ⟨_, hne, _⟩)
      · rcases (paidFold_hasKey viewer e.splitBetween acc.2.2 v).mp hk with hb | ⟨hvv, w, hw⟩
        · exact Or.inl hb
        · exact Or.inr ⟨hvv, Or.inl ⟨hp, w, hw⟩⟩
      · exact absurd rfl hne
    · rintro (hb | ⟨hvv, (⟨_, w, hw⟩ | ⟨hpv, _⟩)⟩)
      · exact Or.inl ((paidFold_hasKey viewer e.splitBetween acc.2.2 v).mpr (Or.inl hb))
      · exact Or.inl ((paidFold_hasKey viewer e.splitBetween acc.2.2 v).mpr
          (Or.inr ⟨hvv, w, hw⟩))
      · exact absurd (by rw [← hpv, hp]) hvv
  · simp only [summaryStep, hp, if_neg, ite_false]
    rw [owedFold_hasKey]
    constructor
    · rintro (hb | ⟨hvp, hpu, w, hw⟩)
      · exact Or.inl hb
      · exact Or.inr ⟨fun h => hpu (by rw [← hvp, h]), Or.inr ⟨hvp.symm, w, hw⟩⟩
    · rintro (hb | ⟨hvv, (⟨hpv, _⟩ | ⟨hpv, w, hw⟩)⟩)
      · exact Or.inl hb
      · exact absurd hpv hp
      · exact Or.inr ⟨hpv.symm, hp, w, hw⟩

theorem specTotalPaid_cons (viewer : Nat) (e : Expense) (rest : List Expense) :
    specTotalPaid viewer (e :: rest) =
      entryPaidAmt viewer e + specTotalPaid viewer rest := by
  by_cases hp : e.paidBy = viewer
  · simp [specTotalPaid, entryPaidAmt, List.filter_cons, hp]
  · simp [specTotalPaid, entryPaidAmt, List.filter_cons, hp]

theorem specTotalOwed_cons (viewer : Nat) (e : Expense) (rest : List Expense) :
    specTotalOwed viewer (e :: rest) =
      entryOwedAmt viewer e + specTotalOwed viewer rest := by
  by_cases hp : e.paidBy = viewer
  · simp [specTotalOwed, entryOwedAmt, List.filter_cons, hp]
  · simp [specTotalOwed, entryOwedAmt, List.filter_cons, hp]

theorem specBalance_cons (viewer : Nat) (e : Expense) (rest : List Expense) (u : Nat) :
    specBalance viewer (e :: rest) u =
      entryBalContrib viewer e u + specBalance viewer rest u := by
  by_cases hu : u = viewer
  · have hc1 : ¬ (e.paidBy = viewer ∧ u ≠ viewer) := fun h => h.2 hu
    have hc2 : ¬ (e.paidBy = u ∧ u ≠ viewer) := fun h => h.2 hu
    simp [specBalance, entryBalContrib, hu, hc1, hc2]
  · have hvu : ¬ viewer = u := fun h => hu h.symm
    by_cases h1 : e.paidBy = viewer
    · have hc1 : e.paidBy = viewer ∧ u ≠ viewer := ⟨h1, hu⟩
      have h2 : ¬ e.paidBy = u := fun h => hu (by rw [← h, h1])
      have hc2 : ¬ (e.paidBy = u ∧ u ≠ viewer) := fun h => h2 h.1
      simp only [specBalance, entryBalContrib, if_neg hu, if_pos hc1, if_neg hc2,
        List.filter_cons, h1, h2]
      simp [hu, hvu]
      try ring
    · by_cases h2 : e.paidBy = u
      · have hc2 : e.paidBy = u ∧ u ≠ viewer := ⟨h2, hu⟩
        have hc1 : ¬ (e.paidBy = viewer ∧ u ≠ viewer) := fun h => h1 h.1
        simp only [specBalance, entryBalContrib, if_neg hu, if_neg hc1, if_pos hc2,
          List.filter_cons, h1, h2]
        simp [hu, hvu]
        try ring
      · have hc1 : ¬ (e.paidBy = viewer ∧ u ≠ viewer) := fun h => h1 h.1
        have hc2 : ¬ (e.paidBy = u ∧ u ≠ viewer) := fun h => h2 h.1
        simp only [specBalance, entryBalContrib, if_neg hu, if_neg hc1, if_neg hc2,
          List.filter_cons, h1, h2]
        simp [h1, h2, hu, hvu]
        try ring

theorem specHasKey_cons (viewer : Nat) (e : Expense) (rest : List Expense) (u : Nat) :
    specHasKey viewer (e :: rest) u ↔
      entryAddsKey viewer e u ∨ specHasKey viewer rest u := by
  constructor
  · rintro ⟨hu, (⟨w, hw, hw1, hw2⟩ | ⟨w, hw, hw1, hw2⟩)⟩
    · rcases List.mem_cons.mp hw with rfl | hmem
      · exact Or.inl ⟨hu, Or.inl ⟨hw1, hw2⟩⟩
      · exact Or.inr ⟨hu, Or.inl ⟨w, hmem, hw1, hw2⟩⟩
    · rcases List.mem_cons.mp hw with rfl | hmem
      · exact Or.inl ⟨hu, Or.inr ⟨hw1, hw2⟩⟩
      · exact Or.inr ⟨hu, Or.inr ⟨w, hmem, hw1, hw2⟩⟩
  · rintro (⟨hu, (⟨h1, h2⟩ | ⟨h1, h2⟩)⟩ | ⟨hu, (⟨w, hw, hw'⟩ | ⟨w, hw, hw'⟩)⟩)
    · exact ⟨hu, Or.inl ⟨e, List.mem_cons_self e rest, h1, h2⟩⟩
    · exact ⟨hu, Or.inr ⟨e, List.mem_cons_self e rest, h1, h2⟩⟩
    · exact ⟨hu, Or.inl ⟨w, List.mem_cons_of_mem e hw, hw'⟩⟩
    · exact ⟨hu, Or.inr ⟨w, List.mem_cons_of_mem e hw, hw'⟩⟩

theorem summaryFold_spec (viewer : Nat) (entries : List Expense)
    (acc : Int × Int × Balances) :
    (entries.foldl (summaryStep viewer) acc).1 = acc.1 + specTotalPaid viewer entries ∧
    (entries.foldl (summaryStep viewer) acc).2.1 = acc.2.1 + specTotalOwed viewer entries ∧
    (∀ v, balD (entries.foldl (summaryStep viewer) acc).2.2 v =
      balD acc.2.2 v + specBalance viewer entries v) ∧
    (∀ v, hasKey (entries.foldl (summaryStep viewer) acc).2.2 v = true ↔
      hasKey acc.2.2 v = true ∨ specHasKey viewer entries v) := by
  induction entries generalizing acc with
  | nil => simp [specTotalPaid, specTotalOwed, specBalance, specHasKey]
  | cons e rest ih =>
    rw [List.foldl_cons]
    obtain ⟨ih1, ih2, ih3, ih4⟩ := ih (summaryStep viewer acc e)
    refine ⟨?_, ?_, ?_, ?_⟩
    · rw [ih1, summaryStep_fst, specTotalPaid_cons]
      ring
    · rw [ih2, summaryStep_snd, specTotalOwed_cons]
      ring
    · intro v
      rw [ih3 v, summaryStep_balD, specBalance_cons]
      ring
    · intro v
      rw [ih4 v, specHasKey_cons]
      constructor
      · rintro (hk | hs)
        · rcases (summaryStep_hasKey viewer acc e v).mp hk with h | h
          · exact Or.inl h
          · exact Or.inr (Or.inl h)
        · exact Or.inr (Or.inr hs)
      · rintro (hb | (ha | hs))
        · exact Or.inl ((summaryStep_hasKey viewer acc e v).mpr (Or.inl hb))
        · exact Or.inl ((summaryStep_hasKey viewer acc e v).mpr (Or.inr ha))
        · exact Or.inr hs

/-- C1: for every viewer and every entry list, the GET /summary
computation agrees with the §4.2 reference definition: `totalPaid`,
`totalOwed`, `netBalance = totalPaid - totalOwed`, and the balances map
have exactly the reference values (same keys, same values). -/
theorem summary_matches_spec (viewer : Nat) (entries : List Expense) :
    (computeSummary viewer entries).totalPaid = specTotalPaid viewer entries ∧
    (computeSummary viewer entries).totalOwed = specTotalOwed viewer entries ∧
    (computeSummary viewer entries).netBalance =
      specTotalPaid viewer entries - specTotalOwed viewer entries ∧
    (∀ u, balD (computeSummary viewer entries).balances u = specBalance viewer entries u) ∧
    (∀ u, hasKey (computeSummary viewer entries).balances u = true ↔
      specHasKey viewer entries u) := by
  obtain ⟨h1, h2, h3, h4⟩ := summaryFold_spec viewer entries (0, 0, [])
  refine ⟨?_, ?_, ?_, fun u => ?_, fun u => ?_⟩
  · show (entries.foldl (summaryStep viewer) (0, 0, [])).1 = _
    rw [h1]
    ring
  · show (entries.foldl (summaryStep viewer) (0, 0, [])).2.1 = _
    rw [h2]
    ring
  · show (entries.foldl (summaryStep viewer) (0, 0, [])).1
        - (entries.foldl (summaryStep viewer) (0, 0, [])).2.1 = _
    rw [h1, h2]
    ring
  · show balD (entries.foldl (summaryStep viewer) (0, 0, [])).2.2 u = _
    rw [h3 u]
    simp [balD, lookupBal]
  · show hasKey (entries.foldl (summaryStep viewer) (0, 0, [])).2.2 u = true ↔ _
    rw [h4 u]
    simp [hasKey, lookupBal]

theorem paidFold_settled (userId : Nat) (shares : List Share) :
    ∀ bal : Balances, (∀ s ∈ shares, s.isPaid = true) →
      shares.foldl (paidStep userId) bal = bal := by
  induction shares with
  | nil =>
    intro bal _
    rfl
  | cons s rest ih =>
    intro bal h
    have hs : s.isPaid = true := h s (List.mem_cons_self s rest)
    have hc : ¬ (s.user ≠ userId ∧ s.isPaid = false) := by
      rintro ⟨-, h2⟩
      rw [hs] at h2
      exact Bool.noConfusion h2
    rw [List.foldl_cons, paidStep, if_neg hc]
    exact ih bal (fun w hw => h w (List.mem_cons_of_mem s hw))

theorem owedFold_settled (userId payer : Nat) (shares : List Share) :
    ∀ (t : Int) (bal : Balances), (∀ s ∈ shares, s.isPaid = true) →
      shares.foldl (owedStep userId payer) (t, bal) = (t, bal) := by
  induction shares with
  | nil =>
    intro t bal _
    rfl
  | cons s rest ih =>
    intro t bal h
    have hs : s.isPaid = true := h s (List.mem_cons_self s rest)
    have hc : ¬ (s.user = userId ∧ payer ≠ userId ∧ s.isPaid = false) := by
      rintro ⟨-, -, h2⟩
      rw [hs] at h2
      exact Bool.noConfusion h2
    rw [List.foldl_cons, owedStep_eq, if_neg hc]
    exact ih t bal (fun w hw => h w (List.mem_cons_of_mem s hw))

theorem summaryStep_settled (viewer : Nat) (acc : Int × Int × Balances) (e : Expense)
    (h : ∀ s ∈ e.splitBetween, s.isPaid = true) :
    summaryStep viewer acc e = (acc.1 + entryPaidAmt viewer e, acc.2.1, acc.2.2) := by
  by_cases hp : e.paidBy = viewer
  · unfold summaryStep
    rw [if_pos hp, paidFold_settled viewer e.splitBetween acc.2.2 h,
      owedFold_settled viewer e.paidBy e.splitBetween acc.2.1 acc.2.2 h]
    simp [entryPaidAmt, hp]
  · unfold summaryStep
    rw [if_neg hp, owedFold_settled viewer e.paidBy e.splitBetween acc.2.1 acc.2.2 h]
    simp [entryPaidAmt, hp]

theorem summaryFold_settled (viewer : Nat) (entries : List Expense) :
    ∀ acc : Int × Int × Balances,
      (∀ e ∈ entries, ∀ s ∈ e.splitBetween, s.isPaid = true) →
      entries.foldl (summaryStep viewer) acc =
        (acc.1 + specTotalPaid viewer entries, acc.2.1, acc.2.2) := by
  induction entries with
  | nil =>
    intro acc _
    simp [specTotalPaid]
  | cons e rest ih =>
    intro acc h
    rw [List.foldl_cons, summaryStep_settled viewer acc e (h e (List.mem_cons_self e rest)),
      ih _ (fun w hw => h w (List.mem_cons_of_mem e hw)), specTotalPaid_cons]
    simp [Prod.mk.injEq, add_assoc]

/-- C2 counterexample: a single fully settled entry paid by viewer 1
gives `totalPaid = 100 ≠ 0`, refuting `totalOwed == totalPaid == 0`. -/
theorem settled_totalPaid_nonzero :
    (∀ s ∈ settledEntry.splitBetween, s.isPaid = true) ∧
    (computeSummary 1 [settledEntry]).totalPaid = 100 ∧
    ¬ (computeSummary 1 [settledEntry]).totalPaid = 0 := by
  refine ⟨?_, ?_, ?_⟩ <;> decide

/-- C2 (amended): when every share of every entry is settled, the viewer's
summary has `totalOwed = 0` and an empty balances map; `totalPaid` still
reports the gross sum of amounts over entries the viewer paid. -/
theorem settled_no_outstanding (viewer : Nat) (entries : List Expense)
    (h : ∀ e ∈ entries, ∀ s ∈ e.splitBetween, s.isPaid = true) :
    (computeSummary viewer entries).totalOwed = 0 ∧
    (computeSummary viewer entries).balances = [] ∧
    (computeSummary viewer entries).totalPaid = specTotalPaid viewer entries := by
  have hf := summaryFold_settled viewer entries (0, 0, []) h
  refine ⟨?_, ?_, ?_⟩
  · show (entries.foldl (summaryStep viewer) (0, 0, [])).2.1 = 0
    rw [hf]
  · show (entries.foldl (summaryStep viewer) (0, 0, [])).2.2 = []
    rw [hf]
  · show (entries.foldl (summaryStep viewer) (0, 0, [])).1 = _
    rw [hf]
    simp

theorem settled_no_outstanding_witness :
    (computeSummary 1 [settledEntry]).totalOwed = 0 ∧
    (computeSummary 1 [settledEntry]).balances = [] ∧
    (computeSummary 1 [settledEntry]).totalPaid = specTotalPaid 1 [settledEntry] :=
  settled_no_outstanding 1 [settledEntry] (by decide)

theorem shareSum_of_single (shares : List Share) (B : Nat) (X : Int)
    (h : shares.filter (fun s => s.user == B) =
      [{ user := B, amount := X, isPaid := false }]) :
    shareSumU shares B = X := by
  unfold shareSumU
  have hcomm : (fun s : Share => s.user == B && !s.isPaid)
      = (fun s : Share => !s.isPaid && (s.user == B)) := by
    funext s
    exact Bool.and_comm _ _
  rw [hcomm, ← List.filter_filter, h]
  simp

/-- C8: if `A` paid entry `e` whose share list contains exactly one share
for debtor `B ≠ A`, unsettled with amount `X`, then over the entry set
`[e]` the summary for `A` has `balances[B] = +X` and the summary for `B`
has `balances[A] = -X`. -/
theorem balance_symmetry (A B : Nat) (X : Int) (e : Expense)
    (hAB : A ≠ B) (hpay : e.paidBy = A)
    (hshare : e.splitBetween.filter (fun s => s.user == B) =
      [{ user := B, amount := X, isPaid := false }]) :
    lookupBal (computeSummary A [e]).balances B = some X ∧
    lookupBal (computeSummary B [e]).balances A = some (-X) := by
  have hsum : shareSumU e.splitBetween B = X := shareSum_of_single _ _ _ hshare
  have hmem : ({ user := B, amount := X, isPaid := false } : Share) ∈ e.splitBetween := by
    have hm : ({ user := B, amount := X, isPaid := false } : Share) ∈
        e.splitBetween.filter (fun s => s.user == B) := by
      rw [hshare]
      exact List.mem_singleton_self _
    exact (List.mem_filter.mp hm).1
  have hBA : B ≠ A := Ne.symm hAB
  have hpb : ¬ e.paidBy = B := fun hx => hAB (by rw [← hpay, hx])
  constructor
  · have hk : hasKey (computeSummary A [e]).balances B = true :=
      (summaryStep_hasKey A (0, 0, []) e B).mpr
        (Or.inr ⟨hBA, Or.inl ⟨hpay, { user := B, amount := X, isPaid := false },
          hmem, rfl, rfl⟩⟩)
    have hbal : balD (computeSummary A [e]).balances B = X := by
      show balD (summaryStep A (0, 0, []) e).2.2 B = X
      rw [summaryStep_balD]
      have hc1 : e.paidBy = A ∧ B ≠ A := ⟨hpay, hBA⟩
      have hc2 : ¬ (e.paidBy = B ∧ B ≠ A) := fun hx => hpb hx.1
      simp [entryBalContrib, if_pos hc1, if_neg hc2, balD, lookupBal,
        unsettledShareSum, hsum]
    rw [lookupBal_eq_some_balD _ _ hk, hbal]
  · have hk : hasKey (computeSummary B [e]).balances A = true :=
      (summaryStep_hasKey B (0, 0, []) e A).mpr
        (Or.inr ⟨hAB, Or.inr ⟨hpay, { user := B, amount := X, isPaid := false },
          hmem, rfl, rfl⟩⟩)
    have hbal : balD (computeSummary B [e]).balances A = -X := by
      show balD (summaryStep B (0, 0, []) e).2.2 A = -X
      rw [summaryStep_balD]
      have hc1 : ¬ (e.paidBy = B ∧ A ≠ B) := fun hx => hpb hx.1
      have hc2 : e.paidBy = A ∧ A ≠ B := ⟨hpay, hAB⟩
      simp [entryBalContrib, if_neg hc1, if_pos hc2, balD, lookupBal,
        unsettledShareSum, hsum]
    rw [lookupBal_eq_some_balD _ _ hk, hbal]

theorem balance_symmetry_witness :
    lookupBal (computeSummary 1 [splitEntry]).balances 2 = some 50 ∧
    lookupBal (computeSummary 2 [splitEntry]).balances 1 = some (-50) :=
  balance_symmetry 1 2 50 splitEntry (by decide) (by decide) (by decide)

/-- C10: GET /summary called with neither a community id nor an event id
does not fail with InvalidScope — unlike GET / — and computes the
viewer's summary over every stored expense. -/
theorem summary_unscoped (viewer : Nat) (st : Store) :
    summaryRoute none none viewer st = .ok (computeSummary viewer st.expenses) ∧
    summaryRoute none none viewer st ≠ .error .InvalidScope ∧
    listByScope none none st = .error .InvalidScope := by
  refine ⟨rfl, ?_, rfl⟩
  intro h
  simp [summaryRoute] at h

/-- C6: GET / fails with InvalidScope when neither scope id is supplied;
with an event id it returns exactly the stored expenses of that event,
and with only a community id exactly the stored expenses of that
community — in both cases a permutation of the scope filter, containing
no entry outside the requested scope, sorted newest-first. -/
theorem listByScope_spec (communityId eventId : Option Nat) (st : Store) :
    (communityId = none → eventId = none →
      listByScope communityId eventId st = .error .InvalidScope) ∧
    (∀ ev, eventId = some ev →
      ∃ l, listByScope communityId eventId st = .ok l ∧
        l.Perm (st.expenses.filter (fun x => x.event == some ev)) ∧
        (∀ x ∈ l, x.event = some ev) ∧
        (∀ x ∈ st.expenses, x.event = some ev → x ∈ l) ∧
        l.Sorted newerFirst) ∧
    (∀ c, eventId = none → communityId = some c →
      ∃ l, listByScope communityId eventId st = .ok l ∧
        l.Perm (st.expenses.filter (fun x => x.community == c)) ∧
        (∀ x ∈ l, x.community = c) ∧
        (∀ x ∈ st.expenses, x.community = c → x ∈ l) ∧
        l.Sorted newerFirst) := by
  refine ⟨?_, ?_, ?_⟩
  · rintro rfl rfl
    rfl
  · rintro ev rfl
    refine ⟨List.insertionSort newerFirst (st.expenses.filter (fun x => x.event == some ev)),
      rfl, List.perm_insertionSort newerFirst _, ?_, ?_,
      List.sorted_insertionSort newerFirst _⟩
    · intro x hx
      have hx' : x ∈ st.expenses.filter (fun x => x.event == some ev) :=
        (List.perm_insertionSort newerFirst _).subset hx
      simpa using (List.mem_filter.mp hx').2
    · intro x hx hev
      have hx' : x ∈ st.expenses.filter (fun x => x.event == some ev) :=
        List.mem_filter.mpr ⟨hx, by simp [hev]⟩
      exact ((List.perm_insertionSort newerFirst _).mem_iff).mpr hx'
  · rintro c rfl rfl
    refine ⟨List.insertionSort newerFirst (st.expenses.filter (fun x => x.community == c)),
      rfl, List.perm_insertionSort newerFirst _, ?_, ?_,
      List.sorted_insertionSort newerFirst _⟩
    · intro x hx
      have hx' : x ∈ st.expenses.filter (fun x => x.community == c) :=
        (List.perm_insertionSort newerFirst _).subset hx
      simpa using (List.mem_filter.mp hx').2
    · intro x hx hc
      have hx' : x ∈ st.expenses.filter (fun x => x.community == c) :=
        List.mem_filter.mpr ⟨hx, by simp [hc]⟩
      exact ((List.perm_insertionSort newerFirst _).mem_iff).mpr hx'

theorem listByScope_spec_witness :
    listByScope none none demoStore = .error .InvalidScope ∧
    (∃ l, listByScope none (some 5) demoStore = .ok l ∧
      l.Perm (demoStore.expenses.filter (fun x => x.event == some 5)) ∧
      (∀ x ∈ l, x.event = some 5) ∧
      (∀ x ∈ demoStore.expenses, x.event = some 5 → x ∈ l) ∧
      l.Sorted newerFirst) ∧
    (∃ l, listByScope (some 1) none demoStore = .ok l ∧
      l.Perm (demoStore.expenses.filter (fun x => x.community == 1)) ∧
      (∀ x ∈ l, x.community = 1) ∧
      (∀ x ∈ demoStore.expenses, x.community = 1 → x ∈ l) ∧
      l.Sorted newerFirst) :=
  ⟨(listByScope_spec none none demoStore).1 rfl rfl,
   (listByScope_spec none (some 5) demoStore).2.1 5 rfl,
   (listByScope_spec (some 1) none demoStore).2.2 1 rfl rfl⟩

theorem find?_pred_of_eq_some {α : Type} (p : α → Bool) (a : α) :
    ∀ l : List α, l.find? p = some a → p a = true := by
  intro l
  induction l with
  | nil =>
    intro h
    simp at h
  | cons b rest ih =>
    intro h
    by_cases hb : p b = true
    · simp [List.find?_cons, hb] at h
      subst h
      exact hb
    · have hb' : p b = false := by simpa using hb
      simp only [List.find?_cons, hb'] at h
      exact ih h

theorem find?_map_update (i : Nat) (ex ex' : Expense) (hid : ex'.id = ex.id) :
    ∀ l : List Expense, l.find? (fun x => x.id == i) = some ex →
      (l.map (fun x => if x.id = ex.id then ex' else x)).find? (fun x => x.id == i) =
        some ex' := by
  intro l
  induction l with
  | nil =>
    intro h
    simp at h
  | cons a rest ih =>
    intro h
    by_cases ha : a.id = i
    · have hb : (a.id == i) = true := by simpa using ha
      simp [List.find?_cons, hb] at h
      subst h
      have hpb : (ex'.id == i) = true := by
        simp [hid, ha]
      simp [List.find?_cons, hb, hpb]
    · have hb : (a.id == i) = false := by simpa using ha
      simp only [List.find?_cons, hb] at h
      have hexi : (fun x : Expense => x.id == i) ex = true :=
        find?_pred_of_eq_some (fun x : Expense => x.id == i) ex rest h
      have hane : ¬ a.id = ex.id := fun hx => ha (by rw [hx]; simpa using hexi)
      simp only [List.map_cons, if_neg hane]
      simp only [List.find?_cons, hb]
      exact ih h

theorem setFirstPaid_users (sh : List Share) (u : Nat) :
    (setFirstPaid sh u).map (fun s => s.user) = sh.map (fun s => s.user) := by
  induction sh with
  | nil => rfl
  | cons s rest ih =>
    by_cases h : s.user = u
    · simp [setFirstPaid, h]
    · simp [setFirstPaid, h, ih]

theorem setFirstPaid_idem (sh : List Share) (u : Nat) :
    setFirstPaid (setFirstPaid sh u) u = setFirstPaid sh u := by
  induction sh with
  | nil => rfl
  | cons s rest ih =>
    by_cases h : s.user = u
    · simp [setFirstPaid, h]
    · simp [setFirstPaid, h, ih]

theorem find?_setFirstPaid (u : Nat) (sp : Share) :
    ∀ sh : List Share, sh.find? (fun t => t.user == u) = some sp →
      (setFirstPaid sh u).find? (fun t => t.user == u) =
        some { sp with isPaid := true } := by
  intro sh
  induction sh with
  | nil =>
    intro h
    simp at h
  | cons a rest ih =>
    intro h
    by_cases ha : a.user = u
    · have hb : (a.user == u) = true := by simpa using ha
      simp [List.find?_cons, hb] at h
      subst h
      simp only [setFirstPaid, if_pos ha]
      simp [List.find?_cons, hb]
    · have hb : (a.user == u) = false := by simpa using ha
      simp only [List.find?_cons, hb] at h
      simp only [setFirstPaid, if_neg ha]
      simp only [List.find?_cons, hb]
      exact ih h

theorem map_update_self (l : List Expense) (ex' : Expense) :
    (l.map (fun x => if x.id = ex'.id then ex' else x)).map
      (fun x => if x.id = ex'.id then ex' else x) =
    l.map (fun x => if x.id = ex'.id then ex' else x) := by
  induction l with
  | nil => rfl
  | cons a rest ih =>
    by_cases h : a.id = ex'.id
    · simp [h, ih]
    · simp [h, ih]

/-- C4: `markSettled` answers NotFound when no stored entry carries the
requested id, or when the entry has no share for the requested debtor;
PermissionDenied when the requester is neither the payer nor that
share's debtor; otherwise it succeeds and the debtor's share in the
updated entry has its settled flag true. -/
theorem markSettled_spec (expenseId debtorId requester : Nat) (st : Store) :
    ((∀ ex ∈ st.expenses, ¬ ex.id = expenseId) →
      markSettled expenseId debtorId requester st = .error .NotFound) ∧
    (∀ ex, findExpense st expenseId = some ex →
      (ex.splitBetween.find? (fun s => s.user == debtorId) = none →
        markSettled expenseId debtorId requester st = .error .NotFound) ∧
      (∀ sp, ex.splitBetween.find? (fun s => s.user == debtorId) = some sp →
        (¬ ex.paidBy = requester → ¬ sp.user = requester →
          markSettled expenseId debtorId requester st = .error .PermissionDenied) ∧
        ((ex.paidBy = requester ∨ sp.user = requester) →
          ∃ st', markSettled expenseId debtorId requester st = .ok st' ∧
            st'.events = st.events ∧
            ∃ ex', findExpense st' expenseId = some ex' ∧
              ex'.splitBetween.find? (fun s => s.user == debtorId) =
                some { sp with isPaid := true } ∧
              ex' = { ex with splitBetween := setFirstPaid ex.splitBetween debtorId }))) := by
  refine ⟨?_, ?_⟩
  · intro h
    have hn : findExpense st expenseId = none := by
      unfold findExpense
      rw [List.find?_eq_none]
      intro x hx
      simpa using h x hx
    simp [markSettled, hn]
  · intro ex hex
    refine ⟨?_, ?_⟩
    · intro hnone
      simp [markSettled, hex, hnone]
    · intro sp hsp
      refine ⟨?_, ?_⟩
      · intro h1 h2
        have hcc : ¬ ex.paidBy = requester ∧ ¬ sp.user = requester := ⟨h1, h2⟩
        simp only [markSettled, hex, hsp]
        rw [if_pos hcc]
      · intro hperm
        have hcond : ¬ (¬ ex.paidBy = requester ∧ ¬ sp.user = requester) := by
          rcases hperm with h | h
          · exact fun hc => hc.1 h
          · exact fun hc => hc.2 h
        refine ⟨saveExpense st { ex with splitBetween := setFirstPaid ex.splitBetween debtorId },
          ?_, rfl, ?_⟩
        · simp only [markSettled, hex, hsp]
          rw [if_neg hcond]
        · refine ⟨{ ex with splitBetween := setFirstPaid ex.splitBetween debtorId },
            ?_, ?_, rfl⟩
          · exact find?_map_update expenseId ex
              { ex with splitBetween := setFirstPaid ex.splitBetween debtorId }
              rfl st.expenses hex
          · exact find?_setFirstPaid debtorId sp ex.splitBetween hsp

theorem markSettled_spec_witness :
    markSettled 9 2 1 demoStore = .error .NotFound ∧
    markSettled 1 7 1 demoStore = .error .NotFound ∧
    markSettled 1 2 4 demoStore = .error .PermissionDenied ∧
    (∃ st', markSettled 1 2 1 demoStore = .ok st' ∧ st'.events = demoStore.events ∧
      ∃ ex', findExpense st' 1 = some ex' ∧
        ex'.splitBetween.find? (fun s => s.user == 2) =
          some { user := 2, amount := 30, isPaid := true } ∧
        ex' = { cabExpense with splitBetween := setFirstPaid cabExpense.splitBetween 2 }) :=
  ⟨(markSettled_spec 9 2 1 demoStore).1 (by decide),
   ((markSettled_spec 1 7 1 demoStore).2 cabExpense rfl).1 rfl,
   (((markSettled_spec 1 2 4 demoStore).2 cabExpense rfl).2
      { user := 2, amount := 30, isPaid := false } rfl).1 (by decide) (by decide),
   (((markSettled_spec 1 2 1 demoStore).2 cabExpense rfl).2
      { user := 2, amount := 30, isPaid := false } rfl).2 (Or.inl rfl)⟩

/-- C3: when `markSettled` succeeds, running the identical call again on
the resulting store succeeds as well and leaves the store unchanged:
settling an already-settled share is a no-op, not an error. -/
theorem markSettled_idempotent (expenseId debtorId requester : Nat) (st st' : Store)
    (h : markSettled expenseId debtorId requester st = .ok st') :
    markSettled expenseId debtorId requester st' = .ok st' := by
  rcases hfind : findExpense st expenseId with _ | ex
  · simp [markSettled, hfind] at h
  rcases hsp : ex.splitBetween.find? (fun s => s.user == debtorId) with _ | sp
  · simp [markSettled, hfind, hsp] at h
  by_cases hperm : ¬ ex.paidBy = requester ∧ ¬ sp.user = requester
  · simp only [markSettled, hfind, hsp] at h
    rw [if_pos hperm] at h
    exact absurd h (by simp)
  have hst' : saveExpense st { ex with splitBetween := setFirstPaid ex.splitBetween debtorId }
      = st' := by
    simp only [markSettled, hfind, hsp] at h
    rw [if_neg hperm] at h
    injection h
  subst hst'
  have hfind2 : findExpense
      (saveExpense st { ex with splitBetween := setFirstPaid ex.splitBetween debtorId })
      expenseId
      = some { ex with splitBetween := setFirstPaid ex.splitBetween debtorId } :=
    find?_map_update expenseId ex
      { ex with splitBetween := setFirstPaid ex.splitBetween debtorId }
      rfl st.expenses hfind
  have hsp2 : ({ ex with splitBetween := setFirstPaid ex.splitBetween debtorId }
        : Expense).splitBetween.find? (fun s => s.user == debtorId)
      = some { sp with isPaid := true } :=
    find?_setFirstPaid debtorId sp ex.splitBetween hsp
  have hperm2 : ¬ (¬ ({ ex with splitBetween := setFirstPaid ex.splitBetween debtorId }
        : Expense).paidBy = requester
      ∧ ¬ ({ sp with isPaid := true } : Share).user = requester) := hperm
  simp only [markSettled, hfind2, hsp2]
  rw [if_neg hperm2]
  simp only [saveExpense, setFirstPaid_idem, Except.ok.injEq]
  simp [setFirstPaid_idem]
  intro a ha hid2
  by_cases hcase : a.id = ex.id
  · rw [if_pos hcase]
  · rw [if_neg hcase] at hid2 ⊢
    exact absurd hid2 hcase

theorem markSettled_idempotent_witness :
    markSettled 1 2 1 demoStoreSettled = .ok demoStoreSettled :=
  markSettled_idempotent 1 2 1 demoStore demoStoreSettled (by rfl)

/-- C5: delete answers NotFound for an unknown id; PermissionDenied for
every requester other than the payer (share debtors included); on
success the expense is removed and its id is pulled from the associated
event's `expenses` list, other events untouched. -/
theorem deleteExpense_spec (expenseId requester : Nat) (st : Store) :
    ((∀ ex ∈ st.expenses, ¬ ex.id = expenseId) →
      deleteExpense expenseId requester st = .error .NotFound) ∧
    (∀ ex, findExpense st expenseId = some ex → ¬ requester = ex.paidBy →
      deleteExpense expenseId requester st = .error .PermissionDenied) ∧
    (∀ ex, findExpense st expenseId = some ex → requester = ex.paidBy →
      ∃ st', deleteExpense expenseId requester st = .ok st' ∧
        st'.expenses = st.expenses.filter (fun x => ! (x.id == ex.id)) ∧
        (∀ x ∈ st'.expenses, ¬ x.id = ex.id) ∧
        (ex.event = none → st'.events = st.events) ∧
        (∀ evId, ex.event = some evId →
          ∀ ev ∈ st'.events, ev.id = evId → ex.id ∉ ev.expenses)) := by
  refine ⟨?_, ?_, ?_⟩
  · intro h
    have hn : findExpense st expenseId = none := by
      unfold findExpense
      rw [List.find?_eq_none]
      intro x hx
      simpa using h x hx
    simp [deleteExpense, hn]
  · intro ex hex hreq
    have hcond : ¬ ex.paidBy = requester := fun hx => hreq hx.symm
    simp only [deleteExpense, hex]
    rw [if_pos hcond]
  · intro ex hex hreq
    have hcond : ¬ ¬ ex.paidBy = requester := fun hx => hx hreq.symm
    refine ⟨{ expenses := st.expenses.filter (fun x => ! (x.id == ex.id)),
              events :=
                match ex.event with
                | some evId =>
                  st.events.map (fun ev =>
                    if ev.id = evId then
                      { ev with expenses := ev.expenses.filter (fun x => ! (x == ex.id)) }
                    else ev)
                | none => st.events }, ?_, rfl, ?_, ?_, ?_⟩
    · simp only [deleteExpense, hex]
      rw [if_neg hcond]
    · intro x hx
      have hx' := List.mem_filter.mp hx
      simpa using hx'.2
    · intro hev
      simp [hev]
    · intro evId hev ev hmem hid
      simp only [hev] at hmem
      obtain ⟨ev0, hev0, rfl⟩ := List.mem_map.mp hmem
      by_cases h0 : ev0.id = evId
      · rw [if_pos h0]
        simp
      · rw [if_neg h0] at hid
        exact absurd hid h0

theorem deleteExpense_spec_witness :
    deleteExpense 9 1 demoStore = .error .NotFound ∧
    deleteExpense 1 2 demoStore = .error .PermissionDenied ∧
    (∃ st', deleteExpense 1 1 demoStore = .ok st' ∧
      st'.expenses = demoStore.expenses.filter (fun x => ! (x.id == cabExpense.id)) ∧
      (∀ x ∈ st'.expenses, ¬ x.id = cabExpense.id) ∧
      (cabExpense.event = none → st'.events = demoStore.events) ∧
      (∀ evId, cabExpense.event = some evId →
        ∀ ev ∈ st'.events, ev.id = evId → cabExpense.id ∉ ev.expenses)) :=
  ⟨(deleteExpense_spec 9 1 demoStore).1 (by decide),
   (deleteExpense_spec 1 2 demoStore).2.1 cabExpense rfl (by decide),
   (deleteExpense_spec 1 1 demoStore).2.2 cabExpense rfl rfl⟩

/-- C7 counterexample: the validator chain is `isFloat({ min: 0 })`,
which accepts amount = 0, so creation succeeds and persists an entry of
amount 0 — refuting "fails unless amount > 0" and "no entry with
amount <= 0 is ever persisted". -/
theorem create_zero_amount_accepted :
    (∃ st', createExpense zeroReq 3 0 { expenses := [], events := [] } = .ok st' ∧
      ∃ ex ∈ st'.expenses, ex.amount ≤ 0) ∧
    createExpense zeroReq 3 0 { expenses := [], events := [] } ≠
      .error .ValidationError := by
  have hok : createExpense zeroReq 3 0 { expenses := [], events := [] } =
      .ok { expenses := [zeroExpense], events := [] } := by rfl
  constructor
  · exact ⟨{ expenses := [zeroExpense], events := [] }, hok, zeroExpense,
      List.mem_singleton_self _, by decide⟩
  · intro h
    rw [hok] at h
    exact Except.noConfusion h

/-- C7 (amended): creation fails with ValidationError whenever the
amount is negative, the category is outside the allowed set, or the
community id is absent (amount 0 is accepted, since `min: 0` is an
inclusive bound); any entry persisted by a successful call that was not
already stored has amount ≥ 0. -/
theorem create_validation (r : CreateRequest) (newId now : Nat) (st : Store) :
    ((r.amount < 0 ∨ allowedCategories.contains r.category = false ∨
        r.communityId = none) →
      createExpense r newId now st = .error .ValidationError) ∧
    (∀ st', createExpense r newId now st = .ok st' →
      0 ≤ r.amount ∧ ∀ ex ∈ st'.expenses, ex ∈ st.expenses ∨ 0 ≤ ex.amount) := by
  refine ⟨?_, ?_⟩
  · intro h
    have hv : validCreate r = false := by
      cases hb : validCreate r with
      | false => rfl
      | true =>
        exfalso
        have h4 := hb
        unfold validCreate at h4
        simp only [Bool.and_eq_true, decide_eq_true_eq] at h4
        obtain ⟨⟨⟨-, hle⟩, hcat⟩, hcom⟩ := h4
        rcases h with h | h | h
        · exact absurd hle (not_le.mpr h)
        · rw [h] at hcat
          exact Bool.noConfusion hcat
        · rw [h] at hcom
          simp at hcom
    simp [createExpense, hv]
  · intro st' hok
    by_cases hv : validCreate r = true
    · have h4 := hv
      unfold validCreate at h4
      simp only [Bool.and_eq_true, decide_eq_true_eq] at h4
      obtain ⟨⟨⟨-, hle⟩, -⟩, -⟩ := h4
      refine ⟨hle, ?_⟩
      rcases hc2 : r.communityId with _ | c
      · simp [createExpense, hv, hc2] at hok
      · simp only [createExpense, hv, if_true, hc2, Except.ok.injEq] at hok
        subst hok
        intro ex hex2
        rcases List.mem_append.mp hex2 with hmem | hmem
        · exact Or.inl hmem
        · have hx1 := List.mem_singleton.mp hmem
          subst hx1
          exact Or.inr hle
    · have hv' : validCreate r = false := by simpa using hv
      simp [createExpense, hv'] at hok

theorem create_validation_witness :
    createExpense negReq 3 0 { expenses := [], events := [] } =
      .error .ValidationError ∧
    (0 ≤ zeroReq.amount ∧
      ∀ ex ∈ ({ expenses := [zeroExpense], events := [] } : Store).expenses,
        ex ∈ ({ expenses := [], events := [] } : Store).expenses ∨ 0 ≤ ex.amount) :=
  ⟨(create_validation negReq 3 0 { expenses := [], events := [] }).1
      (Or.inl (by decide)),
   (create_validation zeroReq 3 0 { expenses := [], events := [] }).2
      { expenses := [zeroExpense], events := [] } rfl⟩

/-- C9 counterexample: creation performs no duplicate-debtor check, so a
request naming debtor 2 in two shares is persisted as-is, with a
repeated debtor in the stored entry. -/
theorem create_duplicate_debtor_accepted :
    ∃ st', createExpense dupReq 4 0 { expenses := [], events := [] } = .ok st' ∧
      ∃ ex ∈ st'.expenses, ¬ (ex.splitBetween.map (fun s => s.user)).Nodup :=
  ⟨{ expenses := [dupExpense], events := [] }, rfl, dupExpense,
    List.mem_singleton_self _, by decide⟩

/-- C9 (amended): the debtor-uniqueness property is not established at
creation (the submitted shares are persisted unchecked); it is preserved
by the operations: when every stored entry has pairwise-distinct
debtors, any successful markSettled or delete keeps that property, and a
successful create keeps it exactly when the submitted split itself has
distinct debtors. -/
theorem debtor_uniqueness_preserved (st : Store)
    (hinv : ∀ ex ∈ st.expenses, (ex.splitBetween.map (fun s => s.user)).Nodup) :
    (∀ eid d rq st', markSettled eid d rq st = .ok st' →
      ∀ ex ∈ st'.expenses, (ex.splitBetween.map (fun s => s.user)).Nodup) ∧
    (∀ eid rq st', deleteExpense eid rq st = .ok st' →
      ∀ ex ∈ st'.expenses, (ex.splitBetween.map (fun s => s.user)).Nodup) ∧
    (∀ r newId now st', createExpense r newId now st = .ok st' →
      (r.splitBetween.map (fun s => s.user)).Nodup →
      ∀ ex ∈ st'.expenses, (ex.splitBetween.map (fun s => s.user)).Nodup) := by
  refine ⟨?_, ?_, ?_⟩
  · intro eid d rq st' h
    rcases hfind : findExpense st eid with _ | ex
    · simp [markSettled, hfind] at h
    rcases hsp : ex.splitBetween.find? (fun s => s.user == d) with _ | sp
    · simp [markSettled, hfind, hsp] at h
    by_cases hperm : ¬ ex.paidBy = rq ∧ ¬ sp.user = rq
    · simp only [markSettled, hfind, hsp] at h
      rw [if_pos hperm] at h
      exact absurd h (by simp)
    · have hst' : saveExpense st
          { ex with splitBetween := setFirstPaid ex.splitBetween d } = st' := by
        simp only [markSettled, hfind, hsp] at h
        rw [if_neg hperm] at h
        injection h
      subst hst'
      intro x hx
      obtain ⟨x0, hx0, rfl⟩ := List.mem_map.mp hx
      by_cases h0 : x0.id = ex.id
      · rw [if_pos h0]
        show ((setFirstPaid ex.splitBetween d).map (fun s => s.user)).Nodup
        rw [setFirstPaid_users]
        exact hinv ex (List.mem_of_find?_eq_some hfind)
      · rw [if_neg h0]
        exact hinv x0 hx0
  · intro eid rq st' h
    rcases hfind : findExpense st eid with _ | ex
    · simp [deleteExpense, hfind] at h
    by_cases hperm : ¬ ex.paidBy = rq
    · simp only [deleteExpense, hfind] at h
      rw [if_pos hperm] at h
      exact absurd h (by simp)
    · simp only [deleteExpense, hfind] at h
      rw [if_neg hperm] at h
      injection h with h
      subst h
      intro x hx
      exact hinv x (List.mem_filter.mp hx).1
  · intro r newId now st' h hnody
    by_cases hv : validCreate r = true
    · rcases hc : r.communityId with _ | c
      · simp [createExpense, hv, hc] at h
      · simp only [createExpense, hv, if_true, hc, Except.ok.injEq] at h
        subst h
        intro x hx
        rcases List.mem_append.mp hx with hmem | hmem
        · exact hinv x hmem
        · have hx1 := List.mem_singleton.mp hmem
          subst hx1
          exact hnody
    · have hv' : validCreate r = false := by simpa using hv
      simp [createExpense, hv'] at h

theorem debtor_uniqueness_preserved_witness :
    (cabSettled.splitBetween.map (fun s => s.user)).Nodup :=
  (debtor_uniqueness_preserved demoStore (by decide)).1 1 2 1 demoStoreSettled (by rfl)
    cabSettled (List.mem_cons_self _ _)

end BatchHub
